import Mathlib

/-!
Verification of the crypto core layer of ProjectTox-Core
(`src/toxcore/crypto_core.h`).

The repository ships only the header `crypto_core.h`; the function bodies
live in a translation unit that is not part of the source tree, and the
cryptographic primitive itself (NaCl / libsodium `crypto_box`) is a
third-party library.  The definitions below therefore model the declared
operations from the specification's words: byte buffers are `List Nat`
(each entry a byte value `< 256`), nonces are 24-byte big-endian counters,
and the authenticated cipher is an idealized key-agreement + stream-cipher
+ MAC primitive with the structure the specification describes
(ciphertext = 16-byte tag followed by the keystream-XORed plaintext,
Diffie-Hellman style key agreement so that both directions derive the same
shared key).
-/

/-- Little-endian value of a byte list: head is the least significant byte. -/
def leVal : List Nat → Nat
  | [] => 0
  | b :: rest => b + 256 * leVal rest

/-- Big-endian value of a byte list, as the C code's buffers are read:
the first byte is the most significant. -/
def bytesToNat (l : List Nat) : Nat := leVal l.reverse

/-- Little-endian byte rendering of a natural number into `w` bytes
(truncating above `256 ^ w`). -/
def natToBytesLE : Nat → Nat → List Nat
  | 0, _ => []
  | w + 1, x => (x % 256) :: natToBytesLE w (x / 256)

/-- Big-endian byte rendering of a natural number into `w` bytes. -/
def natToBytes (w x : Nat) : List Nat := (natToBytesLE w x).reverse

/-- Size constants of the NaCl `crypto_box` primitive used by the header:
32-byte keys, 24-byte nonces, 16-byte authentication tag. -/
def crypto_box_PUBLICKEYBYTES : Nat := 32

def crypto_box_NONCEBYTES : Nat := 24

def crypto_box_MACBYTES : Nat := 16

/-- From `crypto_core.h` line 112: maximum size of a crypto request packet. -/
def MAX_CRYPTO_REQUEST_SIZE : Nat := 1024

/-- From `crypto_core.h` line 114: friend request crypto packet ID. -/
def CRYPTO_PACKET_FRIEND_REQ : Nat := 32

/-- From `crypto_core.h` line 115: hardening crypto packet ID. -/
def CRYPTO_PACKET_HARDENING : Nat := 48

/-- From `crypto_core.h` line 116: NAT ping crypto packet ID. -/
def CRYPTO_PACKET_NAT_PING : Nat := 254

/-- From `crypto_core.h` line 117: group chat get nodes packet ID. -/
def CRYPTO_PACKET_GROUP_CHAT_GET_NODES : Nat := 48

/-- From `crypto_core.h` line 118: group chat send nodes packet ID. -/
def CRYPTO_PACKET_GROUP_CHAT_SEND_NODES : Nat := 49

/-- From `crypto_core.h` line 119: group chat broadcast packet ID. -/
def CRYPTO_PACKET_GROUP_CHAT_BROADCAST : Nat := 50

/-- Error taxonomy of the request/cipher layer, from the specification's
error handling design (the C functions collapse every failure to the
return value `-1`). -/
inductive CryptoError where
  | TooShort
  | PayloadTooLarge
  | AuthenticationFailed
  | MalformedPayload
  deriving DecidableEq

/-- Modelled from the spec: the body of `increment_nonce` is not under
`src/`.  Little-endian increment with carry propagation: the head byte is
bumped, a byte that overflows becomes `0` and the carry moves to the next
byte; a carry off the end is dropped (silent wraparound). -/
def incLE : List Nat → List Nat
  | [] => []
  | b :: rest => if b + 1 < 256 then (b + 1) :: rest else 0 :: incLE rest

/-- Modelled from the spec: the body of `increment_nonce` is not under
`src/`.  Treats the 24 bytes as a big-endian unsigned integer and adds 1,
with carry propagation across all bytes and silent wraparound at the top;
here realised as the carry loop `incLE` run from the least significant
(last) byte. -/
def increment_nonce (nonce : List Nat) : List Nat :=
  (incLE nonce.reverse).reverse

/-- Modelled from the spec: the body of `increment_nonce_number` is not
under `src/`.  Adds an arbitrary non-negative offset `num` to the nonce
read as a big-endian unsigned integer, wrapping modulo `2 ^ 192`. -/
def increment_nonce_number (nonce : List Nat) (num : Nat) : List Nat :=
  natToBytes 24 ((bytesToNat nonce + num) % 2 ^ 192)

/-- Modelled from the spec: an idealized stand-in for the outside
`crypto_box` library's Diffie-Hellman group.  A small prime modulus. -/
def DH_PRIME : Nat := 251

/-- Modelled from the spec: the generator of the toy Diffie-Hellman group. -/
def DH_GEN : Nat := 5

/-- Modelled from the spec: public key derivation of the outside
key-agreement primitive, `pub = g ^ sk mod p`, rendered as 32 bytes. -/
def pubkey (sk : Nat) : List Nat :=
  natToBytes crypto_box_PUBLICKEYBYTES (DH_GEN ^ sk % DH_PRIME)

/-- Modelled from the spec: the raw key-agreement step, `pk ^ sk mod p`,
Diffie-Hellman style so that `keyExchange (pubkey b) a = keyExchange
(pubkey a) b`. -/
def keyExchange (pk : List Nat) (sk : Nat) : Nat :=
  bytesToNat pk ^ sk % DH_PRIME

/-- Modelled from the spec: the body of `encrypt_precompute` is not under
`src/`.  Performs the key-agreement step once and returns the 32-byte
shared key fed to the symmetric fast path. -/
def encrypt_precompute (pk : List Nat) (sk : Nat) : List Nat :=
  natToBytes crypto_box_PUBLICKEYBYTES (keyExchange pk sk)

/-- Modelled from the spec: one keystream byte of the idealized stream
cipher, a function of the shared key, the nonce and the byte position. -/
def ksByte (key nonce : List Nat) (i : Nat) : Nat :=
  (bytesToNat key * 131 + bytesToNat nonce * 31 + i * 17 + 7) % 256

/-- Modelled from the spec: XOR of a buffer with the keystream starting at
position `i`.  XOR is involutive, which gives the decrypt direction. -/
def streamXor (key nonce : List Nat) : Nat → List Nat → List Nat
  | _, [] => []
  | i, b :: rest => (b ^^^ ksByte key nonce i) :: streamXor key nonce (i + 1) rest

/-- Modelled from the spec: the 16-byte authentication tag of the
idealized primitive, a function of the shared key, the nonce and the
plaintext. -/
def mac16 (key nonce msg : List Nat) : List Nat :=
  natToBytes crypto_box_MACBYTES
    ((bytesToNat key * 2654435761 + bytesToNat nonce * 40503 +
      bytesToNat msg * 65537 + msg.length + 97) % 2 ^ 128)

/-- Modelled from the spec: the body of `encrypt_data_symmetric` is not
under `src/`.  Encrypts `plain` under a 32-byte symmetric key and a
24-byte nonce; the output is the 16-byte tag followed by the
keystream-XORed plaintext, so its length is always `plain.length + 16`. -/
def encrypt_data_symmetric (key nonce plain : List Nat) : List Nat :=
  mac16 key nonce plain ++ streamXor key nonce 0 plain

/-- Modelled from the spec: the body of `decrypt_data_symmetric` is not
under `src/`.  A buffer shorter than the 16-byte tag is rejected as
`TooShort` before any cryptographic work; otherwise the tag is split off,
the remainder decrypted, and the tag verified, any mismatch giving the
single failure `AuthenticationFailed`. -/
def decrypt_data_symmetric (key nonce encrypted : List Nat) :
    Except CryptoError (List Nat) :=
  if encrypted.length < crypto_box_MACBYTES then
    .error .TooShort
  else
    let plain := streamXor key nonce 0 (encrypted.drop crypto_box_MACBYTES)
    if mac16 key nonce plain = encrypted.take crypto_box_MACBYTES then
      .ok plain
    else
      .error .AuthenticationFailed

/-- Modelled from the spec: the body of `encrypt_data` is not under
`src/`.  Public-key authenticated encryption as key agreement + stream
cipher + MAC in one primitive: the shared key is derived from the
receiver's public key and the sender's secret key, then used exactly as in
the symmetric path. -/
def encrypt_data (pk : List Nat) (sk : Nat) (nonce plain : List Nat) : List Nat :=
  mac16 (natToBytes crypto_box_PUBLICKEYBYTES (keyExchange pk sk)) nonce plain ++
    streamXor (natToBytes crypto_box_PUBLICKEYBYTES (keyExchange pk sk)) nonce 0 plain

/-- Modelled from the spec: the return value of the C `encrypt_data`,
which reports the length of the encrypted data on success. -/
def encrypt_data_ret (pk : List Nat) (sk : Nat) (nonce plain : List Nat) : Int :=
  ((encrypt_data pk sk nonce plain).length : Int)

/-- Modelled from the spec: the body of `decrypt_data` is not under
`src/`.  The asymmetric decrypt path: derive the shared key from the
sender's public key and the receiver's secret key, then run the symmetric
open step. -/
def decrypt_data (pk : List Nat) (sk : Nat) (nonce encrypted : List Nat) :
    Except CryptoError (List Nat) :=
  if encrypted.length < crypto_box_MACBYTES then
    .error .TooShort
  else
    let plain := streamXor (natToBytes crypto_box_PUBLICKEYBYTES (keyExchange pk sk))
      nonce 0 (encrypted.drop crypto_box_MACBYTES)
    if mac16 (natToBytes crypto_box_PUBLICKEYBYTES (keyExchange pk sk)) nonce plain =
        encrypted.take crypto_box_MACBYTES then
      .ok plain
    else
      .error .AuthenticationFailed

/-- Modelled from the spec: the integer return value of the C
`decrypt_data`, `-1` on any failure and the plaintext length on success. -/
def decrypt_data_ret (pk : List Nat) (sk : Nat) (nonce encrypted : List Nat) : Int :=
  match decrypt_data pk sk nonce encrypted with
  | .ok plain => (plain.length : Int)
  | .error _ => -1

/-- Modelled from the spec: the fixed packet type tag written at offset 0
of every request packet (context-defined constant). -/
def NET_PACKET_CRYPTO : Nat := 32

/-- Modelled from the spec: the body of `create_request` is not under
`src/`.  Validates `data.length <= MAX_CRYPTO_REQUEST_SIZE - 1 - 32 - 24 -
1`, builds the inner plaintext `request_id :: data`, encrypts it to the
receiver with the sender's secret key, and assembles `[packet type] ++
sender public key ++ nonce ++ ciphertext`.  The fresh nonce drawn from the
random source is passed explicitly. -/
def create_request (send_public_key : List Nat) (send_secret_key : Nat)
    (recv_public_key : List Nat) (request_id : Nat) (data : List Nat)
    (nonce : List Nat) : Except CryptoError (List Nat) :=
  if MAX_CRYPTO_REQUEST_SIZE - 1 - 32 - 24 - 1 < data.length then
    .error .PayloadTooLarge
  else
    .ok (NET_PACKET_CRYPTO ::
      (send_public_key ++
        (nonce ++ encrypt_data recv_public_key send_secret_key nonce
          (request_id :: data))))

/-- Modelled from the spec: the body of `handle_request` is not under
`src/`.  Rejects packets shorter than `1 + 32 + 24 + 16` bytes as
`TooShort` before any decryption; extracts the sender public key and nonce
from fixed offsets; decrypts the remaining ciphertext, propagating
`AuthenticationFailed`; rejects an empty plaintext as `MalformedPayload`;
otherwise returns the sender public key, the request id byte and the
payload. -/
def handle_request (self_public_key : List Nat) (self_secret_key : Nat)
    (packet : List Nat) : Except CryptoError (List Nat × Nat × List Nat) :=
  if packet.length < 1 + 32 + 24 + 16 then
    .error .TooShort
  else
    let sender_pk := (packet.drop 1).take 32
    let nonce := (packet.drop 33).take 24
    match decrypt_data sender_pk self_secret_key nonce (packet.drop 57) with
    | .error e => .error e
    | .ok [] => .error .MalformedPayload
    | .ok (request_id :: data) => .ok (sender_pk, request_id, data)

/-- Modelled from the spec: the integer return value of the C
`handle_request`, `-1` on any failure and the payload length on success. -/
def handle_request_ret (self_public_key : List Nat) (self_secret_key : Nat)
    (packet : List Nat) : Int :=
  match handle_request self_public_key self_secret_key packet with
  | .ok r => (r.2.2.length : Int)
  | .error _ => -1

/-! ### Helper lemmas about byte values -/

theorem leVal_lt_of_bytes {l : List Nat} (h : ∀ b ∈ l, b < 256) :
    leVal l < 256 ^ l.length := by
  induction l with
  | nil => simp [leVal]
  | cons b rest ih =>
    have hb : b < 256 := h b (List.mem_cons_self b rest)
    have hr : leVal rest < 256 ^ rest.length :=
      ih (fun x hx => h x (List.mem_cons_of_mem b hx))
    simp only [leVal, List.length_cons, pow_succ]
    omega

theorem leVal_natToBytesLE (w x : Nat) : leVal (natToBytesLE w x) = x % 256 ^ w := by
  induction w generalizing x with
  | zero => simp [natToBytesLE, leVal, Nat.mod_one]
  | succ w ih =>
    simp only [natToBytesLE, leVal, ih]
    rw [pow_succ, Nat.mul_comm (256 ^ w) 256, Nat.mod_mul]

theorem length_natToBytesLE (w x : Nat) : (natToBytesLE w x).length = w := by
  induction w generalizing x with
  | zero => rfl
  | succ w ih => simp [natToBytesLE, ih]

theorem length_natToBytes (w x : Nat) : (natToBytes w x).length = w := by
  simp [natToBytes, length_natToBytesLE]

theorem bytesToNat_natToBytes (w x : Nat) :
    bytesToNat (natToBytes w x) = x % 256 ^ w := by
  simp [bytesToNat, natToBytes, leVal_natToBytesLE]

theorem two_pow_192_eq : (2 : Nat) ^ 192 = 256 ^ 24 := by
  norm_num

/-! ### Nonce increment lemmas -/

theorem leVal_incLE {l : List Nat} (h : ∀ b ∈ l, b < 256) :
    leVal (incLE l) = (leVal l + 1) % 256 ^ l.length := by
  induction l with
  | nil => simp [incLE, leVal]
  | cons b rest ih =>
    have hb : b < 256 := h b (List.mem_cons_self b rest)
    have hrest : ∀ x ∈ rest, x < 256 := fun x hx => h x (List.mem_cons_of_mem b hx)
    have hr : leVal rest < 256 ^ rest.length := leVal_lt_of_bytes hrest
    by_cases hc : b + 1 < 256
    · simp only [incLE, if_pos hc, leVal, List.length_cons]
      rw [pow_succ, Nat.mod_eq_of_lt (by omega)]
      omega
    · have hb255 : b = 255 := by omega
      simp only [incLE, if_neg hc, leVal, List.length_cons, ih hrest, hb255]
      have h1 : 255 + 256 * leVal rest + 1 = 256 * (leVal rest + 1) := by ring
      rw [pow_succ, Nat.mul_comm (256 ^ rest.length) 256, h1,
        Nat.mul_mod_mul_left]
      omega

theorem bytesToNat_increment_nonce {n : List Nat} (h : ∀ b ∈ n, b < 256) :
    bytesToNat (increment_nonce n) = (bytesToNat n + 1) % 256 ^ n.length := by
  have hrev : ∀ b ∈ n.reverse, b < 256 := fun b hb => h b (List.mem_reverse.mp hb)
  simp only [increment_nonce, bytesToNat, List.reverse_reverse]
  rw [leVal_incLE hrev, List.length_reverse]

/-! ### Cipher lemmas -/

theorem streamXor_streamXor (key nonce : List Nat) (i : Nat) (m : List Nat) :
    streamXor key nonce i (streamXor key nonce i m) = m := by
  induction m generalizing i with
  | nil => rfl
  | cons b rest ih =>
    simp only [streamXor, Nat.xor_cancel_right, ih]

theorem length_streamXor (key nonce : List Nat) (i : Nat) (m : List Nat) :
    (streamXor key nonce i m).length = m.length := by
  induction m generalizing i with
  | nil => rfl
  | cons b rest ih => simp [streamXor, ih]

theorem length_mac16 (key nonce msg : List Nat) : (mac16 key nonce msg).length = 16 := by
  simp [mac16, length_natToBytes, crypto_box_MACBYTES]

theorem length_encrypt_data_symmetric (key nonce plain : List Nat) :
    (encrypt_data_symmetric key nonce plain).length = plain.length + 16 := by
  simp [encrypt_data_symmetric, length_mac16, length_streamXor, Nat.add_comm]

theorem length_encrypt_data (pk : List Nat) (sk : Nat) (nonce plain : List Nat) :
    (encrypt_data pk sk nonce plain).length = plain.length + 16 := by
  simp [encrypt_data, length_mac16, length_streamXor, Nat.add_comm]

theorem encrypt_data_as_symmetric (pk : List Nat) (sk : Nat) (nonce plain : List Nat) :
    encrypt_data pk sk nonce plain =
      encrypt_data_symmetric (encrypt_precompute pk sk) nonce plain := rfl

theorem decrypt_data_as_symmetric (pk : List Nat) (sk : Nat) (nonce encrypted : List Nat) :
    decrypt_data pk sk nonce encrypted =
      decrypt_data_symmetric (encrypt_precompute pk sk) nonce encrypted := rfl

theorem keyExchange_pubkey_symm (a b : Nat) :
    keyExchange (pubkey b) a = keyExchange (pubkey a) b := by
  have hlt : ∀ x : Nat, DH_GEN ^ x % DH_PRIME < 256 ^ 32 := by
    intro x
    have h1 : DH_GEN ^ x % DH_PRIME < DH_PRIME := Nat.mod_lt _ (by norm_num [DH_PRIME])
    have h2 : DH_PRIME < 256 ^ 32 := by norm_num [DH_PRIME]
    omega
  simp only [keyExchange, pubkey, crypto_box_PUBLICKEYBYTES, bytesToNat_natToBytes,
    Nat.mod_eq_of_lt (hlt _)]
  rw [← Nat.pow_mod, ← Nat.pow_mod, ← pow_mul, ← pow_mul, Nat.mul_comm]

theorem decrypt_encrypt_symmetric (key nonce m : List Nat) :
    decrypt_data_symmetric key nonce (encrypt_data_symmetric key nonce m) = .ok m := by
  have hmac : (mac16 key nonce m).length = 16 := length_mac16 key nonce m
  have hlen : (encrypt_data_symmetric key nonce m).length = m.length + 16 :=
    length_encrypt_data_symmetric key nonce m
  have htake : (encrypt_data_symmetric key nonce m).take 16 = mac16 key nonce m :=
    List.take_left' hmac
  have hdrop : (encrypt_data_symmetric key nonce m).drop 16 = streamXor key nonce 0 m :=
    List.drop_left' hmac
  simp only [decrypt_data_symmetric, crypto_box_MACBYTES, hlen, htake, hdrop,
    streamXor_streamXor]
  simp

theorem decrypt_encrypt_asymmetric (a b : Nat) (nonce m : List Nat) :
    decrypt_data (pubkey a) b nonce (encrypt_data (pubkey b) a nonce m) = .ok m := by
  rw [decrypt_data_as_symmetric, encrypt_data_as_symmetric]
  have hkey : encrypt_precompute (pubkey a) b = encrypt_precompute (pubkey b) a := by
    simp [encrypt_precompute, keyExchange_pubkey_symm]
  rw [hkey, decrypt_encrypt_symmetric]

/-! ### Claim theorems -/

/-- C1: Encrypt/decrypt round-trip: for all valid key pairs A and B, every
nonce, and every message of length at most `MAX_CRYPTO_REQUEST_SIZE`,
decrypting with (pub_A, sec_B, n) the ciphertext produced by
`encrypt_data` with (pub_B, sec_A, n, m) returns m, and the success return
value equals the plaintext length. -/
theorem encrypt_decrypt_roundtrip (a b : Nat) (nonce m : List Nat)
    (hm : m.length ≤ MAX_CRYPTO_REQUEST_SIZE) :
    decrypt_data (pubkey a) b nonce (encrypt_data (pubkey b) a nonce m) = .ok m ∧
    decrypt_data_ret (pubkey a) b nonce (encrypt_data (pubkey b) a nonce m) =
      (m.length : Int) := by
  have h := decrypt_encrypt_asymmetric a b nonce m
  exact ⟨h, by simp [decrypt_data_ret, h]⟩

theorem encrypt_decrypt_roundtrip_witness :
    ([104, 105, 33] : List Nat).length ≤ MAX_CRYPTO_REQUEST_SIZE ∧
    decrypt_data (pubkey 3) 5 (List.replicate 24 9)
      (encrypt_data (pubkey 5) 3 (List.replicate 24 9) [104, 105, 33]) =
      .ok [104, 105, 33] :=
  ⟨by decide, (encrypt_decrypt_roundtrip 3 5 (List.replicate 24 9) [104, 105, 33]
    (by decide)).1⟩

/-- C2: Precompute equivalence: for every key pair, nonce and message,
`encrypt_data_symmetric` applied with the shared key produced by
`encrypt_precompute` yields ciphertext byte-identical to the direct
asymmetric `encrypt_data`. -/
theorem precompute_symmetric_equivalence (pk : List Nat) (sk : Nat)
    (nonce m : List Nat) :
    encrypt_data_symmetric (encrypt_precompute pk sk) nonce m =
      encrypt_data pk sk nonce m :=
  (encrypt_data_as_symmetric pk sk nonce m).symm

/-- C3: No decryption oracle: every ciphertext of sufficient length whose
MAC does not verify — wrong key, tampered ciphertext or wrong nonce alike —
makes `decrypt_data` fail with the one observable result
`AuthenticationFailed`, the C return value `-1`. -/
theorem decrypt_failure_single_result (pk : List Nat) (sk : Nat)
    (nonce c : List Nat) (hlen : 16 ≤ c.length)
    (hmac : mac16 (encrypt_precompute pk sk) nonce
        (streamXor (encrypt_precompute pk sk) nonce 0 (c.drop 16)) ≠ c.take 16) :
    decrypt_data pk sk nonce c = .error .AuthenticationFailed ∧
    decrypt_data_ret pk sk nonce c = -1 := by
  have h : decrypt_data pk sk nonce c = .error .AuthenticationFailed := by
    rw [decrypt_data_as_symmetric]
    simp only [decrypt_data_symmetric, crypto_box_MACBYTES]
    rw [if_neg (by omega), if_neg hmac]
  exact ⟨h, by simp [decrypt_data_ret, h]⟩

theorem decrypt_failure_single_result_witness :
    (16 ≤ (List.replicate 16 0 : List Nat).length ∧
      mac16 (encrypt_precompute (List.replicate 32 0) 0) (List.replicate 24 0)
        (streamXor (encrypt_precompute (List.replicate 32 0) 0)
          (List.replicate 24 0) 0 ((List.replicate 16 0 : List Nat).drop 16)) ≠
        (List.replicate 16 0 : List Nat).take 16) ∧
    decrypt_data (List.replicate 32 0) 0 (List.replicate 24 0)
      (List.replicate 16 0) = .error .AuthenticationFailed :=
  ⟨⟨by decide, by decide⟩,
    (decrypt_failure_single_result (List.replicate 32 0) 0 (List.replicate 24 0)
      (List.replicate 16 0) (by decide) (by decide)).1⟩

/-- C4: `increment_nonce` treats the 24-byte nonce as a big-endian
unsigned integer and adds 1 modulo `2 ^ 192`, with carry propagation
across all bytes and silent wraparound; in particular the all-0xFF nonce
becomes the all-0x00 nonce. -/
theorem increment_nonce_big_endian (n : List Nat) (hlen : n.length = 24)
    (hbytes : ∀ b ∈ n, b < 256) :
    bytesToNat (increment_nonce n) = (bytesToNat n + 1) % 2 ^ 192 ∧
    increment_nonce (List.replicate 24 255) = List.replicate 24 0 := by
  constructor
  · rw [bytesToNat_increment_nonce hbytes, hlen, two_pow_192_eq]
  · decide

theorem increment_nonce_big_endian_witness :
    ((List.replicate 24 0 : List Nat).length = 24 ∧
      ∀ b ∈ (List.replicate 24 0 : List Nat), b < 256) ∧
    bytesToNat (increment_nonce (List.replicate 24 0)) =
      (bytesToNat (List.replicate 24 0) + 1) % 2 ^ 192 :=
  ⟨⟨by decide, by decide⟩,
    (increment_nonce_big_endian (List.replicate 24 0) (by decide) (by decide)).1⟩

/-- C5: `create_request` accepts data exactly when `data.length <=
MAX_CRYPTO_REQUEST_SIZE - 1 - 32 - 24 - 1` and fails with
`PayloadTooLarge` (the C `-1`) otherwise; in particular a call with
`data.length = MAX_CRYPTO_REQUEST_SIZE` fails. -/
theorem create_request_size_validation (spk : List Nat) (ssk : Nat)
    (rpk : List Nat) (rid : Nat) (data nonce : List Nat) :
    ((∃ p, create_request spk ssk rpk rid data nonce = .ok p) ↔
      data.length ≤ MAX_CRYPTO_REQUEST_SIZE - 1 - 32 - 24 - 1) ∧
    (MAX_CRYPTO_REQUEST_SIZE - 1 - 32 - 24 - 1 < data.length →
      create_request spk ssk rpk rid data nonce = .error .PayloadTooLarge) ∧
    (data.length = MAX_CRYPTO_REQUEST_SIZE →
      create_request spk ssk rpk rid data nonce = .error .PayloadTooLarge) := by
  unfold create_request
  by_cases h : MAX_CRYPTO_REQUEST_SIZE - 1 - 32 - 24 - 1 < data.length
  · rw [if_pos h]
    refine ⟨?_, fun _ => rfl, fun _ => rfl⟩
    constructor
    · rintro ⟨p, hp⟩
      exact absurd hp (by simp)
    · intro hle
      omega
  · rw [if_neg h]
    refine ⟨?_, fun hc => absurd hc h, fun hc => ?_⟩
    · constructor
      · intro _
        omega
      · intro _
        exact ⟨_, rfl⟩
    · exfalso
      simp only [MAX_CRYPTO_REQUEST_SIZE] at h hc
      omega

set_option maxRecDepth 8192 in
theorem create_request_size_validation_witness :
    (List.replicate 1024 0 : List Nat).length = MAX_CRYPTO_REQUEST_SIZE ∧
    create_request [] 0 [] 32 (List.replicate 1024 0) [] =
      .error .PayloadTooLarge :=
  ⟨by decide,
    (create_request_size_validation [] 0 [] 32 (List.replicate 1024 0) []).2.2
      (by decide)⟩

/-- C7: every packet of length strictly below `1 + 32 + 24 + 16 = 73`
bytes makes `handle_request` fail with `TooShort` (the C `-1`) before any
decryption is attempted. -/
theorem handle_request_too_short (pk : List Nat) (sk : Nat)
    (packet : List Nat) (h : packet.length < 1 + 32 + 24 + 16) :
    handle_request pk sk packet = .error .TooShort ∧
    handle_request_ret pk sk packet = -1 := by
  have h1 : handle_request pk sk packet = .error .TooShort := by
    unfold handle_request
    rw [if_pos h]
  exact ⟨h1, by simp [handle_request_ret, h1]⟩

theorem handle_request_too_short_witness :
    (List.replicate 10 0 : List Nat).length < 1 + 32 + 24 + 16 ∧
    handle_request [] 0 (List.replicate 10 0) = .error .TooShort :=
  ⟨by decide, (handle_request_too_short [] 0 (List.replicate 10 0) (by decide)).1⟩

/-- C8: `encrypt_data` produces ciphertext of length `L + 16` and returns
that length; and every buffer shorter than 16 bytes is rejected by
`decrypt_data` and `decrypt_data_symmetric` as `TooShort` before the
cryptographic primitive runs. -/
theorem cipher_length_contract (pk : List Nat) (sk : Nat)
    (nonce m key c : List Nat) (hc : c.length < 16) :
    (encrypt_data pk sk nonce m).length = m.length + 16 ∧
    encrypt_data_ret pk sk nonce m = (m.length : Int) + 16 ∧
    decrypt_data pk sk nonce c = .error .TooShort ∧
    decrypt_data_symmetric key nonce c = .error .TooShort := by
  have hc' : c.length < crypto_box_MACBYTES := by
    simpa [crypto_box_MACBYTES] using hc
  refine ⟨length_encrypt_data pk sk nonce m, ?_, ?_, ?_⟩
  · simp [encrypt_data_ret, length_encrypt_data]
  · unfold decrypt_data
    rw [if_pos hc']
  · unfold decrypt_data_symmetric
    rw [if_pos hc']

theorem cipher_length_contract_witness :
    ([1, 2, 3] : List Nat).length < 16 ∧
    (encrypt_data (pubkey 2) 4 (List.replicate 24 1) [10, 20]).length =
      ([10, 20] : List Nat).length + 16 ∧
    decrypt_data (pubkey 2) 4 (List.replicate 24 1) [1, 2, 3] =
      .error .TooShort :=
  ⟨by decide,
    (cipher_length_contract (pubkey 2) 4 (List.replicate 24 1) [10, 20]
      (List.replicate 32 0) [1, 2, 3] (by decide)).1,
    (cipher_length_contract (pubkey 2) 4 (List.replicate 24 1) [10, 20]
      (List.replicate 32 0) [1, 2, 3] (by decide)).2.2.1⟩

/-- C9: increment additivity: for every nonce and offsets `k ≤ m`,
incrementing by `k` and then by `m - k` with `increment_nonce_number`
yields the same nonce as incrementing by `m` directly. -/
theorem increment_nonce_number_additive (n : List Nat) (k m : Nat)
    (hk : k ≤ m) :
    increment_nonce_number (increment_nonce_number n k) (m - k) =
      increment_nonce_number n m := by
  have h : bytesToNat n + k + (m - k) = bytesToNat n + m := by omega
  unfold increment_nonce_number
  rw [bytesToNat_natToBytes, ← two_pow_192_eq, Nat.mod_mod_of_dvd _ dvd_rfl,
    Nat.mod_add_mod, h]

theorem increment_nonce_number_additive_witness :
    2 ≤ 5 ∧
    increment_nonce_number (increment_nonce_number (List.replicate 24 0) 2)
        (5 - 2) =
      increment_nonce_number (List.replicate 24 0) 5 :=
  ⟨by decide,
    increment_nonce_number_additive (List.replicate 24 0) 2 5 (by decide)⟩

/-- C10: the purpose-byte constants `CRYPTO_PACKET_HARDENING` and
`CRYPTO_PACKET_GROUP_CHAT_GET_NODES` are both 48, so the value 48 is
shared by two distinct declared purposes and the purpose byte alone cannot
identify the application purpose of a request packet. -/
theorem packet_id_collision :
    CRYPTO_PACKET_HARDENING = CRYPTO_PACKET_GROUP_CHAT_GET_NODES ∧
    CRYPTO_PACKET_HARDENING = 48 ∧
    CRYPTO_PACKET_GROUP_CHAT_GET_NODES = 48 ∧
    (CRYPTO_PACKET_HARDENING == CRYPTO_PACKET_FRIEND_REQ) = false :=
  ⟨rfl, rfl, rfl, rfl⟩

/-- C6: request round-trip: for all key pairs A and B, every request id,
and every data within the size bound, the packet built by
`create_request` is accepted by `handle_request`, which returns exactly
A's public key, the same request id, the same data, and the data length
as its return value. -/
theorem request_roundtrip (a b rid : Nat) (data nonce : List Nat)
    (hd : data.length ≤ MAX_CRYPTO_REQUEST_SIZE - 1 - 32 - 24 - 1)
    (hn : nonce.length = 24) :
    ∃ p, create_request (pubkey a) a (pubkey b) rid data nonce = .ok p ∧
      handle_request (pubkey b) b p = .ok (pubkey a, rid, data) ∧
      handle_request_ret (pubkey b) b p = (data.length : Int) := by
  set c : List Nat := encrypt_data (pubkey b) a nonce (rid :: data) with hc
  set p : List Nat := NET_PACKET_CRYPTO :: (pubkey a ++ (nonce ++ c)) with hp
  have hpk : (pubkey a).length = 32 := by
    simp [pubkey, length_natToBytes, crypto_box_PUBLICKEYBYTES]
  have hclen : c.length = data.length + 17 := by
    rw [hc, length_encrypt_data]
    simp only [List.length_cons]
  have hcr : create_request (pubkey a) a (pubkey b) rid data nonce = .ok p := by
    unfold create_request
    rw [if_neg (by omega)]
  have hp1 : p.drop 1 = pubkey a ++ (nonce ++ c) := by
    rw [hp]
    rfl
  have h33 : p.drop 33 = nonce ++ c := by
    rw [show (33 : Nat) = 1 + 32 by norm_num, ← List.drop_drop, hp1,
      List.drop_left' hpk]
  have h57 : p.drop 57 = c := by
    rw [show (57 : Nat) = 33 + 24 by norm_num, ← List.drop_drop, h33,
      List.drop_left' hn]
  have hsender : (p.drop 1).take 32 = pubkey a := by
    rw [hp1, List.take_left' hpk]
  have hnonce : (p.drop 33).take 24 = nonce := by
    rw [h33, List.take_left' hn]
  have hguard : ¬ p.length < 1 + 32 + 24 + 16 := by
    rw [hp]
    simp only [List.length_cons, List.length_append, hpk, hn, hclen]
    omega
  have hhr : handle_request (pubkey b) b p = .ok (pubkey a, rid, data) := by
    unfold handle_request
    rw [if_neg hguard]
    simp only [hsender, hnonce, h57, hc]
    rw [decrypt_encrypt_asymmetric]
  exact ⟨p, hcr, hhr, by simp [handle_request_ret, hhr]⟩

theorem request_roundtrip_witness :
    (([104, 101, 108, 108, 111] : List Nat).length ≤
        MAX_CRYPTO_REQUEST_SIZE - 1 - 32 - 24 - 1 ∧
      (List.replicate 24 7 : List Nat).length = 24) ∧
    ∃ p, create_request (pubkey 3) 3 (pubkey 5) 32 [104, 101, 108, 108, 111]
        (List.replicate 24 7) = .ok p ∧
      handle_request (pubkey 5) 5 p =
        .ok (pubkey 3, 32, [104, 101, 108, 108, 111]) ∧
      handle_request_ret (pubkey 5) 5 p =
        (([104, 101, 108, 108, 111] : List Nat).length : Int) :=
  ⟨⟨by decide, by decide⟩,
    request_roundtrip 3 5 32 [104, 101, 108, 108, 111] (List.replicate 24 7)
      (by decide) (by decide)⟩
